import Mathlib

/-!
Shallow embedding of the token-indexer synchronization engine
(NestJS/TypeScript sources: `IndexingService`, `IndexingProcessor`,
`AutoResumeService`, `ShutdownService`, `HealthMonitoringService`,
TypeORM entities `IndexingProgress`, `TokenTransfer`, `FailedEvent`).

Conventions of the embedding:
- Block numbers, chain ids and counters are `Int` (JS numbers / bigint
  columns; `lastProcessedBlock` can be `-1` when a contract starts at
  block 0).
- Repository state is explicit: a `DbState` carries the progress rows,
  the materialized transfers and the failed-event rows; Bull queues are
  lists of job payloads split by queue state (waiting / delayed / active).
- A fallible collaborator call (RPC fetch, storage save) is an explicit
  `Except`/`Bool` parameter of the operation that awaits it.
- A method that can throw is rendered as `Outcome σ`: `.ok s` for normal
  return, `.thrown s` for an exception propagating to the caller, with
  `s` the state as mutated up to that point.
- Wall-clock columns (`createdAt`, `updatedAt`, timestamps) are omitted:
  no modelled behaviour reads them.
-/

namespace TokenIndexer

/-- A contract address (the sources lowercase it at persistence borders). -/
abbrev Addr := String

/-- JS `String.prototype.toLowerCase()` as used on hex addresses
(per-character lowering; kernel-computable, unlike `String.toLower`). -/
def lowercase (s : String) : String := ⟨s.data.map Char.toLower⟩

/-- `TokenEvent` from `blockchain.service.ts`; for a `Transfer` event the
`args` array is `[from, to, value]`, embedded as three named fields. -/
structure TokenEvent where
  transactionHash : String
  logIndex : Int
  blockNumber : Int
  blockHash : String
  contractAddress : Addr
  eventName : String
  argFrom : String
  argTo : String
  argValue : Int
  deriving DecidableEq

/-- One row of the `indexing_progress` table (unique on
`(contractAddress, chainId)`). -/
structure ProgressRow where
  contractAddress : Addr
  chainId : Int
  lastProcessedBlock : Int
  isSyncing : Bool
  syncStartBlock : Int
  totalEventsProcessed : Int
  deriving DecidableEq

/-- One row of the `token_transfers` table (natural key
`(transactionHash, logIndex)`). -/
structure TokenTransfer where
  transactionHash : String
  logIndex : Int
  blockNumber : Int
  blockHash : String
  contractAddress : Addr
  fromAddress : String
  toAddress : String
  value : Int
  chainId : Int
  deriving DecidableEq

/-- One row of the `failed_events` table. -/
structure FailedEventRow where
  contractAddress : Addr
  chainId : Int
  blockNumber : Int
  transactionHash : String
  logIndex : Int
  errorMessage : String
  retryCount : Int
  deriving DecidableEq

/-- The three repositories the indexing service mutates. -/
structure DbState where
  progress : List ProgressRow
  transfers : List TokenTransfer
  failedEvents : List FailedEventRow
  deriving DecidableEq

/-- Result of a method that can throw: the final state is carried in
either case (mutations performed before the throw are kept). -/
inductive Outcome (σ : Type) where
  | ok (s : σ)
  | thrown (s : σ)
  deriving DecidableEq

/-- The state a method left behind, whether it returned or threw. -/
def Outcome.state : Outcome σ → σ
  | .ok s => s
  | .thrown s => s

/-- The `(contractAddress, chainId)` where-clause used by every
`indexing_progress` query. -/
def progressKey (addr : Addr) (ch : Int) (r : ProgressRow) : Bool :=
  r.contractAddress == addr && r.chainId == ch

/-- `TypeORM findOne` on `indexing_progress` by `(contractAddress, chainId)`. -/
def findProgress (db : DbState) (addr : Addr) (ch : Int) : Option ProgressRow :=
  db.progress.find? (progressKey addr ch)

/-- `TypeORM update({contractAddress, chainId}, ...)`: rewrites every row
matching the key with `f`. -/
def rowUpd (addr : Addr) (ch : Int) (f : ProgressRow → ProgressRow)
    (r : ProgressRow) : ProgressRow :=
  if progressKey addr ch r then f r else r

/-- `TypeORM update({contractAddress, chainId}, ...)` over the whole table. -/
def updateWhere (l : List ProgressRow) (addr : Addr) (ch : Int)
    (f : ProgressRow → ProgressRow) : List ProgressRow :=
  l.map (rowUpd addr ch f)

/-- `IndexingService.updateSyncingStatus`: sets `isSyncing` on the row of
`(contractAddress.toLowerCase(), chainId)`. -/
def updateSyncingStatus (db : DbState) (addr : Addr) (ch : Int) (b : Bool) : DbState :=
  { db with
      progress := updateWhere db.progress (lowercase addr) ch
        (fun r => { r with isSyncing := b }) }

/-- The `(transactionHash, logIndex)` natural key of a transfer row. -/
def transferKey (tx : String) (li : Int) (t : TokenTransfer) : Bool :=
  t.transactionHash == tx && t.logIndex == li

/-- `TypeORM findOne` on `token_transfers` by the natural key. -/
def findTransfer (db : DbState) (tx : String) (li : Int) : Option TokenTransfer :=
  db.transfers.find? (transferKey tx li)

/-- `IndexingService.processTransferEvent`: builds and saves one
`TokenTransfer` row from the event's `[from, to, value]` args. -/
def processTransferEvent (db : DbState) (e : TokenEvent) (addr : Addr) (ch : Int) : DbState :=
  { db with transfers := db.transfers ++
      [{ transactionHash := e.transactionHash
         logIndex := e.logIndex
         blockNumber := e.blockNumber
         blockHash := e.blockHash
         contractAddress := (lowercase addr)
         fromAddress := (lowercase e.argFrom)
         toAddress := (lowercase e.argTo)
         value := e.argValue
         chainId := ch }] }

/-- `IndexingService.storeFailedEvent`: appends a `FailedEvent` row with
`retryCount = 0`. -/
def storeFailedEvent (db : DbState) (e : TokenEvent) (addr : Addr) (ch : Int)
    (msg : String) : DbState :=
  { db with failedEvents := db.failedEvents ++
      [{ contractAddress := (lowercase addr)
         chainId := ch
         blockNumber := e.blockNumber
         transactionHash := e.transactionHash
         logIndex := e.logIndex
         errorMessage := msg
         retryCount := 0 }] }

/-- `repository.increment({contractAddress, chainId}, 'totalEventsProcessed', 1)`. -/
def incrementTotal (db : DbState) (addr : Addr) (ch : Int) : DbState :=
  { db with
      progress := updateWhere db.progress addr ch
        (fun r => { r with totalEventsProcessed := r.totalEventsProcessed + 1 }) }

/-- `IndexingService.processTokenEvent`. The `saveOk` flag models whether
the storage save inside `processTransferEvent` succeeds (the one
awaited call of the guarded region that can throw for a single event);
on a throw the catch block records a `FailedEvent` and rethrows. -/
def processTokenEvent (db : DbState) (e : TokenEvent) (addr : Addr) (ch : Int)
    (saveOk : Bool) : Outcome DbState :=
  match findTransfer db e.transactionHash e.logIndex with
  | some _ => .ok db
  | none =>
    if e.eventName == "Transfer" then
      if saveOk then
        .ok (incrementTotal (processTransferEvent db e addr ch) addr ch)
      else
        .thrown (storeFailedEvent db e addr ch "save failed")
    else
      -- 'Approval' (and any other configured kind) only logs, then the
      -- shared tail increments the progress counter.
      .ok (incrementTotal db addr ch)

/-- Payload of a `process-event` job. -/
structure ProcessEventJob where
  event : TokenEvent
  contractAddress : Addr
  chainId : Int
  deriving DecidableEq

/-- Payload of a `process-block-range` job (`IndexingJob`). -/
structure IndexingJobData where
  contractAddress : Addr
  chainId : Int
  fromBlock : Int
  toBlock : Int
  events : List String
  deriving DecidableEq

/-- `IndexingService.processBlockRange`: fetches the range's events
(`fetch` is the outcome of `blockchainService.getTokenEvents`), enqueues
one `process-event` job per event, then unconditionally updates
`lastProcessedBlock = toBlock` on the `(contractAddress, chainId)` row.
On a fetch failure nothing is mutated and the error is rethrown. -/
def processBlockRange (db : DbState) (eventQueue : List ProcessEventJob)
    (job : IndexingJobData) (fetch : Except Unit (List TokenEvent)) :
    Outcome (DbState × List ProcessEventJob) :=
  match fetch with
  | .error _ => .thrown (db, eventQueue)
  | .ok evs =>
    let eventQueue' := eventQueue ++ evs.map fun e =>
      { event := e, contractAddress := job.contractAddress, chainId := job.chainId }
    let db' := { db with
        progress := updateWhere db.progress job.contractAddress job.chainId
          (fun r => { r with lastProcessedBlock := job.toBlock }) }
    .ok (db', eventQueue')

/-- The batch loop of `IndexingProcessor.handleStartIndexing`
(lines 80-115): starting at `f`, emit `[f, min (f+B-1) t]` and continue
from the next block until the range `[f, t]` is exhausted. -/
def batches (f t B : Int) : List (Int × Int) :=
  if h : f ≤ t ∧ 1 ≤ B then
    (f, min (f + B - 1) t) :: batches (min (f + B - 1) t + 1) t B
  else []
termination_by (t + 1 - f).toNat
decreasing_by omega

example : batches 100 349 100 = [(100, 199), (200, 299), (300, 349)] := by
  rw [batches]; norm_num
  rw [batches]; norm_num
  rw [batches]; norm_num
  rw [batches]; norm_num

/-- Payload of a `start-indexing` job. -/
structure StartJobData where
  contractAddress : Addr
  chainId : Int
  events : List String
  deriving DecidableEq

/-- A Bull queue: job payloads by queue state. `waiting` also stands for
jobs added with `delay: 0`; `delay > 0` jobs are in `delayed`. -/
structure BullQueue (α : Type) where
  waiting : List α
  delayed : List α
  active : List α
  deriving DecidableEq

/-- The three work queues of `queue.module.ts`. -/
structure Queues where
  indexing : BullQueue StartJobData
  blockProc : BullQueue IndexingJobData
  eventProc : BullQueue ProcessEventJob
  deriving DecidableEq

/-- A tracked-contract entry of the `indexing.contracts` configuration;
`startBlock = none` stands for the `'latest'` setting. -/
structure ContractConfig where
  address : Addr
  chainId : Int
  startBlock : Option Int
  events : List String
  enabled : Bool
  deriving DecidableEq

/-- `IndexingService.getContractConfig`: first configured contract whose
lowercased address matches the lowercased argument. -/
def getContractConfig (configs : List ContractConfig) (addr : Addr) : Option ContractConfig :=
  configs.find? fun c => (lowercase c.address) == (lowercase addr)

/-- `IndexingService.startIndexing`. `valid` is the outcome of
`blockchainService.validateContractAddress`, `currentBlock` the chain
height used when `startBlock` is `'latest'`. Throws (mutating nothing)
when the contract is unconfigured/disabled or fails validation; creates
the progress row with `lastProcessedBlock = startBlock - 1` on first
start, else re-marks the existing row `isSyncing = true`; finally
enqueues one `start-indexing` job. -/
def startIndexing (db : DbState) (q : BullQueue StartJobData)
    (configs : List ContractConfig) (valid : Bool) (currentBlock : Int)
    (addr : Addr) : Outcome (DbState × BullQueue StartJobData) :=
  match getContractConfig configs addr with
  | none => .thrown (db, q)
  | some cfg =>
    if !cfg.enabled then .thrown (db, q)
    else if !valid then .thrown (db, q)
    else
      match findProgress db (lowercase addr) cfg.chainId with
      | none =>
        .ok ({ db with progress := db.progress ++
              [{ contractAddress := lowercase addr
                 chainId := cfg.chainId
                 lastProcessedBlock := cfg.startBlock.getD currentBlock - 1
                 isSyncing := true
                 syncStartBlock := cfg.startBlock.getD currentBlock
                 totalEventsProcessed := 0 }] },
          { q with waiting := q.waiting ++ [⟨lowercase addr, cfg.chainId, cfg.events⟩] })
      | some _ =>
        .ok ({ db with
                progress := updateWhere db.progress (lowercase addr) cfg.chainId
                  (fun r => { r with isSyncing := true }) },
          { q with waiting := q.waiting ++ [⟨lowercase addr, cfg.chainId, cfg.events⟩] })

/-- The delay of the caught-up monitoring recheck
(`indexing.processor.ts` line 74: "Check every 30 seconds"). -/
def monitoringDelayMs : Int := 30000

/-- The delay between two catch-up runs
(`indexing.processor.ts` line 123: "Check every minute"). -/
def catchUpCycleDelayMs : Int := 60000

/-- Everything one `start-indexing` run decides: the mutated store, the
`process-block-range` jobs it submitted, the delay of the re-run it
scheduled (if any), and whether it threw. -/
structure RunResult where
  db : DbState
  blockJobs : List IndexingJobData
  nextDelay : Option Int
  threw : Bool
  deriving DecidableEq

/-- `IndexingProcessor.handleStartIndexing`, sequential view: no
concurrent writer flips `isSyncing` during the run, so the in-loop stop
check and the final re-read observe the entry value. Missing progress
row throws (the catch marks `isSyncing = false`, a no-op update here);
a stopped contract is skipped; a caught-up contract
(`lastProcessedBlock >= currentBlock - 1`) is marked not syncing and a
monitoring recheck is armed; otherwise the batch loop submits the
sub-ranges and a catch-up re-run is scheduled. -/
def handleStartIndexing (db : DbState) (addr : Addr) (ch : Int)
    (events : List String) (currentBlock batchSize : Int) : RunResult :=
  match findProgress db (lowercase addr) ch with
  | none => { db := updateSyncingStatus db addr ch false, blockJobs := [], nextDelay := none, threw := true }
  | some p =>
    if !p.isSyncing then
      { db := db, blockJobs := [], nextDelay := none, threw := false }
    else if currentBlock - 1 ≤ p.lastProcessedBlock then
      { db := updateSyncingStatus db addr ch false
        blockJobs := []
        nextDelay := some monitoringDelayMs
        threw := false }
    else
      { db := db
        blockJobs := (batches (p.lastProcessedBlock + 1) currentBlock batchSize).map
          (fun r => { contractAddress := addr, chainId := ch, fromBlock := r.1, toBlock := r.2, events := events })
        nextDelay := some catchUpCycleDelayMs
        threw := false }

/-- `IndexingService.removeContractJobs`: drops every waiting or delayed
job of the three queues whose payload matches the contract; active jobs
are untouched. The whole scan is wrapped in a catch that only logs, so a
failure (`cancelFails`) leaves the queues as they were and is not
rethrown. -/
def removeContractJobs (qs : Queues) (addr : Addr) (ch : Int) (cancelFails : Bool) : Queues :=
  if cancelFails then qs
  else
    let keepStart : StartJobData → Bool := fun j =>
      !((lowercase j.contractAddress) == (lowercase addr) && j.chainId == ch)
    let keepRange : IndexingJobData → Bool := fun j =>
      !((lowercase j.contractAddress) == (lowercase addr) && j.chainId == ch)
    let keepEvent : ProcessEventJob → Bool := fun j =>
      !((lowercase j.contractAddress) == (lowercase addr) && j.chainId == ch)
    { indexing := { qs.indexing with
        waiting := qs.indexing.waiting.filter keepStart
        delayed := qs.indexing.delayed.filter keepStart }
      blockProc := { qs.blockProc with
        waiting := qs.blockProc.waiting.filter keepRange
        delayed := qs.blockProc.delayed.filter keepRange }
      eventProc := { qs.eventProc with
        waiting := qs.eventProc.waiting.filter keepEvent
        delayed := qs.eventProc.delayed.filter keepEvent } }

/-- Result of `IndexingService.stopIndexing`. -/
inductive StopResult where
  | ok
  | notFound
  deriving DecidableEq

/-- `IndexingService.stopIndexing`: throws `NotFoundError` (mutating
nothing) when no progress row exists; otherwise sets
`isSyncing = false`, then removes pending jobs — whose failure is
swallowed — and reports success. -/
def stopIndexing (db : DbState) (qs : Queues) (addr : Addr) (ch : Int)
    (cancelFails : Bool) : StopResult × DbState × Queues :=
  match findProgress db (lowercase addr) ch with
  | none => (.notFound, db, qs)
  | some _ =>
    (.ok, updateSyncingStatus db addr ch false, removeContractJobs qs addr ch cancelFails)

/-- `AutoResumeService.resetStuckSyncingStates` (also
`ShutdownService.markSyncingAsStopped`): `update({isSyncing: true},
{isSyncing: false})` — force-resets every row with a stuck flag. -/
def resetStuckSyncingStates (db : DbState) : DbState :=
  { db with
      progress := db.progress.map
        (fun r => if r.isSyncing then { r with isSyncing := false } else r) }

/-- One observable step of the startup recovery pass. -/
inductive ResumeStep where
  | resetAll
  | start (addr : Addr)
  | skip (addr : Addr)
  deriving DecidableEq

/-- `AutoResumeService.resumeContractIndexing`: when the contract has a
progress row, call `startIndexing` (its errors are caught and logged);
otherwise skip — the contract is "not yet indexed", not "resumable". -/
def resumeContractIndexing (configs : List ContractConfig) (valid : Addr → Bool)
    (currentBlock : Int) (db : DbState) (q : BullQueue StartJobData)
    (c : ContractConfig) : DbState × BullQueue StartJobData × ResumeStep :=
  match findProgress db (lowercase c.address) c.chainId with
  | some _ =>
    let r := startIndexing db q configs (valid c.address) currentBlock c.address
    (r.state.1, r.state.2, .start c.address)
  | none => (db, q, .skip c.address)

/-- The `for` loop of `AutoResumeService.resumeIndexing` step 3. -/
def resumeLoop (configs : List ContractConfig) (valid : Addr → Bool)
    (currentBlock : Int) :
    DbState → BullQueue StartJobData → List ContractConfig →
    DbState × BullQueue StartJobData × List ResumeStep
  | db, q, [] => (db, q, [])
  | db, q, c :: cs =>
    let r1 := resumeContractIndexing configs valid currentBlock db q c
    let r2 := resumeLoop configs valid currentBlock r1.1 r1.2.1 cs
    (r2.1, r2.2.1, r1.2.2 :: r2.2.2)

/-- `AutoResumeService.resumeIndexing`: reset stuck syncing states, then
resume every configured-and-enabled contract in order. The returned
step list records the observable order of the pass. -/
def resumeIndexing (db : DbState) (q : BullQueue StartJobData)
    (configs : List ContractConfig) (valid : Addr → Bool) (currentBlock : Int) :
    DbState × BullQueue StartJobData × List ResumeStep :=
  let db1 := resetStuckSyncingStates db
  let r := resumeLoop configs valid currentBlock db1 q (configs.filter (fun c => c.enabled))
  (r.1, r.2.1, ResumeStep.resetAll :: r.2.2)

/-- The shutdown-drain poll loop of `ShutdownService.waitForActiveJobs`,
discretized: poll `k` observes `counts k` total active jobs across the
three queues and happens while `1000 * k < timeoutMs` (each iteration
sleeps 1 second). Returns whether all jobs completed and how many polls
ran. -/
def waitLoop (counts : Nat → Nat) (timeoutMs : Nat) (k : Nat) : Bool × Nat :=
  if 1000 * k < timeoutMs then
    if counts k = 0 then (true, k + 1)
    else waitLoop counts timeoutMs (k + 1)
  else (false, k)
termination_by timeoutMs - 1000 * k
decreasing_by omega

/-- `ShutdownService.waitForActiveJobs` with its default 30000 ms timeout
made explicit. -/
def waitForActiveJobs (counts : Nat → Nat) (timeoutMs : Nat := 30000) : Bool × Nat :=
  waitLoop counts timeoutMs 0

/-- One observable step of the shutdown sequence. -/
inductive ShutdownStep where
  | markStopped
  | poll (k : Nat)
  | warnTimeout
  | closeQueue (name : String)
  deriving DecidableEq

/-- `ShutdownService.onApplicationShutdown`: mark syncing rows stopped,
wait (bounded) for active jobs, then close the three queues. The step
list records the observable order. -/
def onApplicationShutdown (db : DbState) (counts : Nat → Nat)
    (timeoutMs : Nat := 30000) : DbState × List ShutdownStep :=
  let db1 := resetStuckSyncingStates db
  let w := waitForActiveJobs counts timeoutMs
  (db1,
    [ShutdownStep.markStopped]
      ++ (List.range w.2).map ShutdownStep.poll
      ++ (if w.1 then [] else [ShutdownStep.warnTimeout])
      ++ [ShutdownStep.closeQueue "indexing",
          ShutdownStep.closeQueue "block-processing",
          ShutdownStep.closeQueue "event-processing"])

/-- `status` enum of `SystemHealthStatus`. -/
inductive HealthLevel where
  | healthy
  | degraded
  | unhealthy
  deriving DecidableEq

/-- `blockchain` section of the health report. -/
structure BlockchainHealth where
  connected : Bool
  latestBlock : Option Int
  rpcUrl : String
  deriving DecidableEq

/-- `indexing` section of the health report. -/
structure IndexingHealth where
  totalContracts : Nat
  activelyIndexing : Nat
  syncLag : List (Addr × Int)
  deriving DecidableEq

/-- `database` section of the health report. -/
structure DatabaseHealth where
  connected : Bool
  totalEvents : Int
  failedEvents : Nat
  deriving DecidableEq

/-- `queue` section of the health report. -/
structure QueueHealth where
  healthy : Bool
  estimatedJobs : Nat
  deriving DecidableEq

/-- `SystemHealthStatus` (wall-clock fields omitted). -/
structure SystemHealthStatus where
  status : HealthLevel
  blockchain : BlockchainHealth
  indexing : IndexingHealth
  database : DatabaseHealth
  queue : QueueHealth
  issues : List String
  deriving DecidableEq

/-- Outcomes of every collaborator call `getSystemHealth` awaits; each
`Except` is `.error` when that call throws. The two height queries are
separate calls and may disagree. -/
structure HealthOracles where
  rpcHeight : Except Unit Int
  progressRows : Except Unit (List ProgressRow)
  lagHeight : Except Unit Int
  dbTotalEvents : Except Unit Int
  failedCount : Except Unit Nat
  enabledContracts : Nat
  rpcUrl : String

/-- `HealthMonitoringService.checkBlockchainHealth`: its own catch turns
a failed height query into `connected = false`. -/
def checkBlockchainHealth (o : HealthOracles) : BlockchainHealth :=
  match o.rpcHeight with
  | .ok h => { connected := true, latestBlock := some h, rpcUrl := o.rpcUrl }
  | .error _ => { connected := false, latestBlock := none, rpcUrl := o.rpcUrl }

/-- `HealthMonitoringService.checkIndexingHealth`: progress rows and a
fresh height feed the per-contract sync lag; its catch returns zeros. -/
def checkIndexingHealth (o : HealthOracles) : IndexingHealth :=
  match o.progressRows, o.lagHeight with
  | .ok rows, .ok h =>
    { totalContracts := o.enabledContracts
      activelyIndexing := (rows.filter (fun p => p.isSyncing)).length
      syncLag := rows.map (fun p => (p.contractAddress, h - p.lastProcessedBlock)) }
  | _, _ => { totalContracts := 0, activelyIndexing := 0, syncLag := [] }

/-- `HealthMonitoringService.checkDatabaseHealth`: its catch turns any
storage failure into `connected = false` with zero counts. -/
def checkDatabaseHealth (o : HealthOracles) : DatabaseHealth :=
  match o.dbTotalEvents, o.failedCount with
  | .ok t, .ok c => { connected := true, totalEvents := t, failedEvents := c }
  | _, _ => { connected := false, totalEvents := 0, failedEvents := 0 }

/-- `status = status === 'unhealthy' ? 'unhealthy' : 'degraded'`. -/
def degradeUnless (s : HealthLevel) : HealthLevel :=
  if s = .unhealthy then .unhealthy else .degraded

/-- The `try` block of `HealthMonitoringService.getSystemHealth` as an
`Except` computation: every awaited collaborator call is already guarded
by its check's own catch, so the block evaluates the threshold rules and
returns a report. -/
def getSystemHealthE (o : HealthOracles) : Except Unit SystemHealthStatus := do
  let blockchain := checkBlockchainHealth o
  let s1 := if !blockchain.connected then HealthLevel.unhealthy else HealthLevel.healthy
  let i1 := if !blockchain.connected then ["Blockchain RPC connection failed"] else []
  let indexing := checkIndexingHealth o
  let noneActive := indexing.activelyIndexing = 0 ∧ 0 < indexing.totalContracts
  let s2 := if noneActive then degradeUnless s1 else s1
  let i2 := i1 ++ if noneActive then ["No contracts are actively indexing"] else []
  -- `Math.max(...)` of an empty spread is `-Infinity`, never above the
  -- threshold, hence the `Option`-valued maximum.
  let lags : List Int := indexing.syncLag.map (fun p => p.2)
  let highLag : Bool := match lags.max? with
    | some m => decide (1000 < m)
    | none => false
  let s3 := if highLag then degradeUnless s2 else s2
  let i3 := i2 ++ if highLag then ["High sync lag detected"] else []
  let database := checkDatabaseHealth o
  let s4 := if !database.connected then HealthLevel.unhealthy else s3
  let i4 := i3 ++ if !database.connected then ["Database connection failed"] else []
  let manyFailed := 100 < database.failedEvents
  let s5 := if manyFailed then degradeUnless s4 else s4
  let i5 := i4 ++ if manyFailed then ["High number of failed events"] else []
  pure
    { status := s5
      blockchain := blockchain
      indexing := indexing
      database := database
      queue := { healthy := true, estimatedJobs := 0 }
      issues := i5 }

/-- The fixed report of the outer `catch` of `getSystemHealth`. -/
def healthFallback : SystemHealthStatus :=
  { status := .unhealthy
    blockchain := { connected := false, latestBlock := none, rpcUrl := "" }
    indexing := { totalContracts := 0, activelyIndexing := 0, syncLag := [] }
    database := { connected := false, totalEvents := 0, failedEvents := 0 }
    queue := { healthy := false, estimatedJobs := 0 }
    issues := ["System health check failed"] }

/-- `HealthMonitoringService.getSystemHealth`: the `try` block with the
outer catch replacing any escaped error by the fallback report. -/
def getSystemHealth (o : HealthOracles) : SystemHealthStatus :=
  match getSystemHealthE o with
  | .ok r => r
  | .error _ => healthFallback

/-- Combined mutable state of the engine: the repositories plus the
three Bull queues. -/
structure Sys where
  db : DbState
  queues : Queues
  deriving DecidableEq

/-- One operation the service layer can run against the shared state,
with the collaborator outcomes it awaits. -/
inductive Op where
  | blockRange (job : IndexingJobData) (fetch : Except Unit (List TokenEvent))
  | tokenEvent (j : ProcessEventJob) (saveOk : Bool)
  | stop (addr : Addr) (ch : Int) (cancelFails : Bool)
  | setSyncing (addr : Addr) (ch : Int) (b : Bool)
  | runStart (addr : Addr) (ch : Int) (events : List String) (currentBlock batchSize : Int)
  | start (addr : Addr) (valid : Bool) (currentBlock : Int)

/-- Effect of one operation on the combined state (whether the
operation returned or threw, its mutations are kept). `runStart` also
records its submissions: block jobs join the block-processing queue and
the scheduled re-run joins the indexing queue as a delayed job. -/
def step (configs : List ContractConfig) (s : Sys) : Op → Sys
  | .blockRange job fetch =>
    let r := (processBlockRange s.db s.queues.eventProc.waiting job fetch).state
    { db := r.1
      queues := { s.queues with eventProc := { s.queues.eventProc with waiting := r.2 } } }
  | .tokenEvent j saveOk =>
    { s with db := (processTokenEvent s.db j.event j.contractAddress j.chainId saveOk).state }
  | .stop addr ch cancelFails =>
    let r := stopIndexing s.db s.queues addr ch cancelFails
    { db := r.2.1, queues := r.2.2 }
  | .setSyncing addr ch b =>
    { s with db := updateSyncingStatus s.db addr ch b }
  | .runStart addr ch events currentBlock batchSize =>
    let r := handleStartIndexing s.db addr ch events currentBlock batchSize
    { db := r.db
      queues := { s.queues with
        blockProc := { s.queues.blockProc with waiting := s.queues.blockProc.waiting ++ r.blockJobs }
        indexing := { s.queues.indexing with
          delayed := s.queues.indexing.delayed ++
            (match r.nextDelay with
             | some _ => [{ contractAddress := addr, chainId := ch, events := events }]
             | none => []) } } }
  | .start addr valid currentBlock =>
    let r := (startIndexing s.db s.queues.indexing configs valid currentBlock addr).state
    { db := r.1, queues := { s.queues with indexing := r.2 } }

/-- A `blockRange` operation is in-order when the sub-range's upper
bound is not below the entity's current cursor (true for every
sub-range processed in submission order); all other operations are
unrestricted. -/
def inOrderAt (s : Sys) : Op → Bool
  | .blockRange job _ =>
    match findProgress s.db job.contractAddress job.chainId with
    | some r => decide (r.lastProcessedBlock ≤ job.toBlock)
    | none => true
  | _ => true

/-- A whole operation sequence is in-order when each `blockRange` is
in-order in the state it actually runs against. -/
def inOrderFrom (configs : List ContractConfig) (s : Sys) : List Op → Bool
  | [] => true
  | op :: ops => inOrderAt s op && inOrderFrom configs (step configs s op) ops

/-- Running a sequence of operations. -/
def run (configs : List ContractConfig) (s : Sys) (ops : List Op) : Sys :=
  ops.foldl (step configs) s

/-! Concrete fixtures used to evaluate the embedding on explicit inputs. -/

/-- Empty queue. -/
def emptyQueue {α : Type} : BullQueue α := { waiting := [], delayed := [], active := [] }

/-- All three queues empty. -/
def emptyQueues : Queues :=
  { indexing := emptyQueue, blockProc := emptyQueue, eventProc := emptyQueue }

/-- A progress row for contract `"a"` on chain 1 with the given cursor. -/
def rowAt (last : Int) : ProgressRow :=
  { contractAddress := "a", chainId := 1, lastProcessedBlock := last
    isSyncing := true, syncStartBlock := 0, totalEventsProcessed := 0 }

/-- A store holding only `rowAt last`. -/
def dbAt (last : Int) : DbState :=
  { progress := [rowAt last], transfers := [], failedEvents := [] }

/-- A combined state holding only `rowAt last` and empty queues. -/
def sysAt (last : Int) : Sys := { db := dbAt last, queues := emptyQueues }

/-- A sub-range job for contract `"a"` ending below the cursor of
`dbAt 200` — the shape a bounded-retry redelivery produces after a later
sub-range already completed. -/
def lateJob : IndexingJobData :=
  { contractAddress := "a", chainId := 1, fromBlock := 100, toBlock := 150
    events := ["Transfer", "Approval"] }

/-- A concrete `Approval` event. -/
def approvalEvent : TokenEvent :=
  { transactionHash := "0xtx", logIndex := 1, blockNumber := 5, blockHash := "0xbh"
    contractAddress := "a", eventName := "Approval"
    argFrom := "o", argTo := "s", argValue := 7 }

/-- A concrete `Transfer` event. -/
def transferEvent : TokenEvent :=
  { transactionHash := "0xty", logIndex := 2, blockNumber := 101, blockHash := "0xbh"
    contractAddress := "a", eventName := "Transfer"
    argFrom := "f", argTo := "g", argValue := 9 }

/-- An in-order sub-range job for contract `"a"`: its upper bound 250 is
above the cursor of `dbAt 200`. -/
def okJob : IndexingJobData :=
  { contractAddress := "a", chainId := 1, fromBlock := 201, toBlock := 250
    events := ["Transfer", "Approval"] }

/-- Queues holding pending and active work for contracts `"a"` and `"b"`. -/
def sampleQueues : Queues :=
  { indexing := { waiting := [{ contractAddress := "a", chainId := 1, events := ["Transfer"] }]
                  delayed := [], active := [] }
    blockProc := { waiting := []
                   delayed := [{ contractAddress := "a", chainId := 1, fromBlock := 100
                                 toBlock := 150, events := ["Transfer"] }]
                   active := [{ contractAddress := "b", chainId := 1, fromBlock := 0
                                toBlock := 9, events := [] }] }
    eventProc := { waiting := [{ event := transferEvent, contractAddress := "a", chainId := 1 },
                               { event := approvalEvent, contractAddress := "b", chainId := 2 }]
                   delayed := [], active := [] } }

/-- Enabled configured contract `"a"` (has a progress row in `dbAt`). -/
def cfgA : ContractConfig :=
  { address := "a", chainId := 1, startBlock := some 0, events := ["Transfer"], enabled := true }

/-- Enabled configured contract `"b"` (never indexed: no progress row). -/
def cfgB : ContractConfig :=
  { address := "b", chainId := 1, startBlock := none, events := ["Transfer"], enabled := true }

/-- Disabled configured contract `"c"`. -/
def cfgC : ContractConfig :=
  { address := "c", chainId := 1, startBlock := some 5, events := [], enabled := false }

/-! ### Helper lemmas about the repository primitives -/

theorem progressKey_eq_true {a : Addr} {ch : Int} {r : ProgressRow} :
    progressKey a ch r = true ↔ r.contractAddress = a ∧ r.chainId = ch := by
  simp [progressKey]

theorem progressKey_of_preserve {f : ProgressRow → ProgressRow}
    (hf : ∀ r, (f r).contractAddress = r.contractAddress ∧ (f r).chainId = r.chainId)
    (a : Addr) (ch : Int) (r : ProgressRow) :
    progressKey a ch (f r) = progressKey a ch r := by
  simp [progressKey, (hf r).1, (hf r).2]

theorem find?_key_map (l : List ProgressRow) {g : ProgressRow → ProgressRow}
    (hg : ∀ r, (g r).contractAddress = r.contractAddress ∧ (g r).chainId = r.chainId)
    (a : Addr) (ch : Int) :
    (l.map g).find? (progressKey a ch) = (l.find? (progressKey a ch)).map g := by
  induction l with
  | nil => rfl
  | cons r t ih =>
    rw [List.map_cons]
    by_cases h : progressKey a ch r = true
    · rw [List.find?_cons_of_pos _ (by rw [progressKey_of_preserve hg]; exact h),
        List.find?_cons_of_pos _ h, Option.map_some']
    · rw [List.find?_cons_of_neg _ (by rw [progressKey_of_preserve hg]; exact h),
        List.find?_cons_of_neg _ h, ih]

theorem rowUpd_preserves {f : ProgressRow → ProgressRow}
    (hf : ∀ r, (f r).contractAddress = r.contractAddress ∧ (f r).chainId = r.chainId)
    (a : Addr) (ch : Int) :
    ∀ r, ((rowUpd a ch f r).contractAddress = r.contractAddress ∧
      (rowUpd a ch f r).chainId = r.chainId) := by
  intro r
  unfold rowUpd
  split
  · exact hf r
  · exact ⟨rfl, rfl⟩

theorem find?_updateWhere_same (l : List ProgressRow) (a : Addr) (ch : Int)
    (f : ProgressRow → ProgressRow)
    (hf : ∀ r, (f r).contractAddress = r.contractAddress ∧ (f r).chainId = r.chainId) :
    (updateWhere l a ch f).find? (progressKey a ch)
      = (l.find? (progressKey a ch)).map f := by
  rw [updateWhere, find?_key_map l (rowUpd_preserves hf a ch)]
  cases hfind : l.find? (progressKey a ch) with
  | none => rfl
  | some r0 =>
    have hk := List.find?_some hfind
    simp [rowUpd, hk]

theorem find?_updateWhere_other (l : List ProgressRow) (a : Addr) (ch : Int)
    (f : ProgressRow → ProgressRow)
    (hf : ∀ r, (f r).contractAddress = r.contractAddress ∧ (f r).chainId = r.chainId)
    (a' : Addr) (ch' : Int) (hne : ¬(a' = a ∧ ch' = ch)) :
    (updateWhere l a ch f).find? (progressKey a' ch')
      = l.find? (progressKey a' ch') := by
  rw [updateWhere, find?_key_map l (rowUpd_preserves hf a ch)]
  cases hfind : l.find? (progressKey a' ch') with
  | none => rfl
  | some r0 =>
    have hk := progressKey_eq_true.mp (List.find?_some hfind)
    have hz : progressKey a ch r0 = false := by
      rw [Bool.eq_false_iff]
      intro hcon
      rw [progressKey_eq_true] at hcon
      exact hne ⟨hk.1.symm.trans hcon.1, hk.2.symm.trans hcon.2⟩
    simp [rowUpd, hz]

theorem findProgress_reset (db : DbState) (a : Addr) (ch : Int) :
    findProgress (resetStuckSyncingStates db) a ch
      = (findProgress db a ch).map
          (fun r => if r.isSyncing then { r with isSyncing := false } else r) := by
  unfold resetStuckSyncingStates findProgress
  exact find?_key_map _ (fun r => by by_cases h : r.isSyncing <;> simp [h]) a ch

theorem findProgress_updateSyncing_same (db : DbState) (a : Addr) (ch : Int) (b : Bool) :
    findProgress (updateSyncingStatus db a ch b) (lowercase a) ch
      = (findProgress db (lowercase a) ch).map (fun r => { r with isSyncing := b }) := by
  unfold updateSyncingStatus findProgress
  exact find?_updateWhere_same _ _ _ (fun r => { r with isSyncing := b }) (fun r => ⟨rfl, rfl⟩)

theorem findProgress_updateSyncing_other (db : DbState) (a : Addr) (ch : Int) (b : Bool)
    (a' : Addr) (ch' : Int) (hne : ¬(a' = (lowercase a) ∧ ch' = ch)) :
    findProgress (updateSyncingStatus db a ch b) a' ch' = findProgress db a' ch' := by
  unfold updateSyncingStatus findProgress
  exact find?_updateWhere_other _ _ _ (fun r => { r with isSyncing := b }) (fun r => ⟨rfl, rfl⟩) _ _ hne

/-! ### The batch loop -/

theorem batches_closed (f t B : Int) (hB : 1 ≤ B) (hft : f ≤ t) :
    batches f t B = (List.range ((t - f).toNat / B.toNat + 1)).map
      (fun i : Nat => (f + (i : Int) * B, min (f + ((i : Int) + 1) * B - 1) t)) := by
  rw [batches, dif_pos ⟨hft, hB⟩]
  by_cases h : t - f < B
  · have hmin : min (f + B - 1) t = t := by omega
    rw [hmin, batches, dif_neg (by omega)]
    have hone : (t - f).toNat / B.toNat = 0 := Nat.div_eq_of_lt (by omega)
    rw [hone, show List.range 1 = [0] from rfl, List.map_cons, List.map_nil]
    rw [List.cons.injEq, Prod.mk.injEq]
    refine ⟨⟨by push_cast; ring, ?_⟩, rfl⟩
    push_cast
    omega
  · have hmin : min (f + B - 1) t = f + B - 1 := by omega
    rw [hmin]
    have ih := batches_closed (f + B) t B hB (by omega)
    rw [show f + B - 1 + 1 = f + B by ring, ih]
    have hn : (t - f).toNat / B.toNat + 1 = ((t - (f + B)).toNat / B.toNat + 1) + 1 := by
      have h1 : (t - f).toNat = (t - (f + B)).toNat + B.toNat := by omega
      rw [h1, Nat.add_div_right _ (by omega)]
    rw [hn]
    conv_rhs => rw [List.range_succ_eq_map, List.map_cons, List.map_map]
    rw [List.cons.injEq]
    constructor
    · rw [Prod.mk.injEq]
      constructor
      · push_cast; ring
      · push_cast; omega
    · apply List.map_congr_left
      intro i _
      rw [Function.comp_apply, Prod.mk.injEq]
      constructor
      · push_cast; ring
      · push_cast
        congr 1
        ring
termination_by (t + 1 - f).toNat
decreasing_by omega

theorem batches_size (f t B : Int) (hB : 1 ≤ B) :
    ∀ p ∈ batches f t B, p.2 + 1 - p.1 ≤ B := by
  intro p hp
  by_cases hft : f ≤ t
  · rw [batches_closed f t B hB hft] at hp
    obtain ⟨i, _, hpe⟩ := List.mem_map.mp hp
    have h1 : min (f + ((i : Int) + 1) * B - 1) t ≤ f + ((i : Int) + 1) * B - 1 :=
      min_le_left _ _
    have h2 : ((i : Int) + 1) * B = (i : Int) * B + B := by ring
    rw [← hpe]
    dsimp only
    linarith
  · rw [batches, dif_neg (by omega)] at hp
    exact absurd hp (List.not_mem_nil p)

theorem batches_chain (f t B : Int) (hB : 1 ≤ B) (hft : f ≤ t) :
    List.Chain' (fun p q : Int × Int => p.2 < q.1) (batches f t B) := by
  rw [batches_closed f t B hB hft, List.chain'_map, List.chain'_range_succ]
  intro m _
  have h1 : min (f + ((m : Int) + 1) * B - 1) t ≤ f + ((m : Int) + 1) * B - 1 :=
    min_le_left _ _
  dsimp only
  push_cast
  linarith

theorem batches_cover (f t B : Int) (hB : 1 ≤ B) (b : Int) :
    (batches f t B).countP (fun p => decide (p.1 ≤ b) && decide (b ≤ p.2))
      = if f ≤ b ∧ b ≤ t then 1 else 0 := by
  by_cases hft : f ≤ t
  · rw [batches, dif_pos ⟨hft, hB⟩, List.countP_cons]
    have ih := batches_cover (min (f + B - 1) t + 1) t B hB b
    rw [ih]
    simp only [Bool.and_eq_true, decide_eq_true_eq]
    split_ifs <;> omega
  · rw [batches, dif_neg (by omega), List.countP_nil, if_neg (by omega)]
termination_by (t + 1 - f).toNat
decreasing_by omega

/-! ### C3: batch splitting -/

/-- C3: for every contiguous range `[f, t]` with `f ≤ t` and every
`batchSize B ≥ 1`, the batch loop emits exactly the sub-ranges
`sub_i = [f + i*B, min (f + (i+1)*B - 1, t)]`, each of at most `B`
blocks, strictly ascending and non-overlapping, covering `[f, t]`
exactly once; in particular splitting `[100, 349]` with `B = 100`
yields `[100,199], [200,299], [300,349]`. -/
theorem c3_batch_coverage (f t B : Int) (hB : 1 ≤ B) (hft : f ≤ t) :
    batches f t B = (List.range ((t - f).toNat / B.toNat + 1)).map
        (fun i : Nat => (f + (i : Int) * B, min (f + ((i : Int) + 1) * B - 1) t))
      ∧ (∀ p ∈ batches f t B, p.2 + 1 - p.1 ≤ B)
      ∧ List.Chain' (fun p q : Int × Int => p.2 < q.1) (batches f t B)
      ∧ (∀ b : Int, (batches f t B).countP
          (fun p => decide (p.1 ≤ b) && decide (b ≤ p.2)) = if f ≤ b ∧ b ≤ t then 1 else 0)
      ∧ batches 100 349 100 = [(100, 199), (200, 299), (300, 349)] := by
  refine ⟨batches_closed f t B hB hft, batches_size f t B hB,
    batches_chain f t B hB hft, fun b => batches_cover f t B hB b, ?_⟩
  rw [batches]; norm_num
  rw [batches]; norm_num
  rw [batches]; norm_num
  rw [batches]; norm_num

/-- C3 witness: the theorem applied to the range `[100, 349]` with
`batchSize = 100`. -/
theorem c3_batch_coverage_witness :
    (1 : Int) ≤ 100 ∧ (100 : Int) ≤ 349 ∧
      batches 100 349 100 = [(100, 199), (200, 299), (300, 349)] :=
  ⟨by norm_num, by norm_num,
    (c3_batch_coverage 100 349 100 (by norm_num) (by norm_num)).2.2.2.2⟩

/-! ### C5: the caught-up transition -/

/-- C5 (amended): a run that observes `lastProcessedBlock ≥
currentHeight - 1` sets `isSyncing = false`, submits no sub-range, and
schedules a delayed (not immediate) recheck whose period — 30 s — is
distinct from the 60 s catch-up cadence. (The recheck period is
*shorter* than the catch-up cadence, not longer; see the
counterexample.) -/
theorem c5_caught_up (db : DbState) (addr : Addr) (ch : Int) (events : List String)
    (currentBlock batchSize : Int) (p : ProgressRow)
    (hfind : findProgress db (lowercase addr) ch = some p)
    (hsync : p.isSyncing = true)
    (hcaught : currentBlock - 1 ≤ p.lastProcessedBlock) :
    handleStartIndexing db addr ch events currentBlock batchSize
        = { db := updateSyncingStatus db addr ch false, blockJobs := []
            nextDelay := some monitoringDelayMs, threw := false }
      ∧ (∀ r', findProgress (handleStartIndexing db addr ch events currentBlock batchSize).db
            (lowercase addr) ch = some r' → r'.isSyncing = false)
      ∧ monitoringDelayMs ≠ catchUpCycleDelayMs
      ∧ 0 < monitoringDelayMs := by
  have h1 : handleStartIndexing db addr ch events currentBlock batchSize
      = { db := updateSyncingStatus db addr ch false, blockJobs := []
          nextDelay := some monitoringDelayMs, threw := false } := by
    unfold handleStartIndexing
    rw [hfind]
    simp only [hsync, Bool.not_true, Bool.false_eq_true, if_false]
    rw [if_pos hcaught]
  refine ⟨h1, ?_, by decide, by decide⟩
  intro r' hr'
  rw [h1] at hr'
  rw [findProgress_updateSyncing_same, hfind] at hr'
  have := Option.some.inj hr'
  rw [← this]

/-- C5 witness: the theorem applied to a store whose only row has
cursor 109 while the chain height is 110. -/
theorem c5_caught_up_witness :
    handleStartIndexing (dbAt 109) "a" 1 ["Transfer"] 110 100
        = { db := updateSyncingStatus (dbAt 109) "a" 1 false, blockJobs := []
            nextDelay := some monitoringDelayMs, threw := false }
      ∧ monitoringDelayMs ≠ catchUpCycleDelayMs := by
  have h := c5_caught_up (dbAt 109) "a" 1 ["Transfer"] 110 100 (rowAt 109)
    (by decide) (by decide) (by decide)
  exact ⟨h.1, h.2.2.1⟩

/-- C5 counterexample: the monitoring recheck (30 s) is *not* longer
than the active catch-up cadence (60 s): the caught-up branch arms a
30000 ms delay while the catch-up branch re-arms at 60000 ms. -/
theorem c5_counterexample :
    (handleStartIndexing (dbAt 109) "a" 1 [] 110 100).nextDelay = some monitoringDelayMs
      ∧ (handleStartIndexing (dbAt 99) "a" 1 [] 110 100).nextDelay = some catchUpCycleDelayMs
      ∧ ¬ (catchUpCycleDelayMs < monitoringDelayMs) :=
  ⟨by decide, by decide, by decide⟩

/-! ### C2 and C10: idempotency of event application -/

/-- C2 (amended): applying the same `Transfer` event twice via
`processTokenEvent` is idempotent — after the second application exactly
one materialized transfer with the natural key exists,
`totalEventsProcessed` was incremented only once, and the second
application is a no-op returning normally, not an error. (For an
`Approval` event the claim fails: no record is materialized and the
counter increments on every delivery; see the counterexample.) -/
theorem c2_transfer_idempotent (db : DbState) (e : TokenEvent) (addr : Addr) (ch : Int)
    (hkind : e.eventName = "Transfer")
    (hnew : db.transfers.countP (transferKey e.transactionHash e.logIndex) = 0) :
    ∃ db1,
      processTokenEvent db e addr ch true = .ok db1
      ∧ processTokenEvent db1 e addr ch true = .ok db1
      ∧ db1.transfers.countP (transferKey e.transactionHash e.logIndex) = 1
      ∧ db1.failedEvents = db.failedEvents
      ∧ (∀ r, findProgress db addr ch = some r →
          ∃ r', findProgress db1 addr ch = some r'
            ∧ r'.totalEventsProcessed = r.totalEventsProcessed + 1) := by
  have hfnone : findTransfer db e.transactionHash e.logIndex = none := by
    unfold findTransfer
    rw [List.find?_eq_none]
    exact List.countP_eq_zero.mp hnew
  refine ⟨incrementTotal (processTransferEvent db e addr ch) addr ch, ?_, ?_, ?_, rfl, ?_⟩
  · unfold processTokenEvent
    rw [hfnone]
    simp [hkind]
  · have hfind1 : findTransfer (incrementTotal (processTransferEvent db e addr ch) addr ch)
        e.transactionHash e.logIndex
        = some { transactionHash := e.transactionHash, logIndex := e.logIndex
                 blockNumber := e.blockNumber, blockHash := e.blockHash
                 contractAddress := lowercase addr, fromAddress := lowercase e.argFrom
                 toAddress := lowercase e.argTo, value := e.argValue, chainId := ch } := by
      show (db.transfers ++ [_]).find? _ = _
      rw [List.find?_append]
      rw [show db.transfers.find? (transferKey e.transactionHash e.logIndex) = none from hfnone]
      simp [transferKey]
    unfold processTokenEvent
    rw [hfind1]
  · show (db.transfers ++ [_]).countP _ = 1
    rw [List.countP_append, hnew]
    simp [transferKey]
  · intro r hr
    have hsame : findProgress (incrementTotal (processTransferEvent db e addr ch) addr ch) addr ch
        = (findProgress db addr ch).map
            (fun r => { r with totalEventsProcessed := r.totalEventsProcessed + 1 }) :=
      find?_updateWhere_same _ _ _ _ (fun r => ⟨rfl, rfl⟩)
    rw [hsame, hr]
    exact ⟨_, rfl, rfl⟩

/-- C2 counterexample: an `Approval` event applied twice materializes no
record at all (not "exactly one") and increments `totalEventsProcessed`
twice (not "only once") — nothing dedups a non-materializing event. -/
theorem c2_counterexample :
    ∃ db1 db2,
      processTokenEvent (dbAt 0) approvalEvent "a" 1 true = Outcome.ok db1
      ∧ processTokenEvent db1 approvalEvent "a" 1 true = Outcome.ok db2
      ∧ db2.transfers.countP
          (transferKey approvalEvent.transactionHash approvalEvent.logIndex) = 0
      ∧ (∃ r, findProgress db2 "a" 1 = some r ∧ r.totalEventsProcessed = 2) := by
  refine ⟨incrementTotal (dbAt 0) "a" 1,
    incrementTotal (incrementTotal (dbAt 0) "a" 1) "a" 1,
    by decide, by decide, by decide, ?_⟩
  exact ⟨{ contractAddress := "a", chainId := 1, lastProcessedBlock := 0
           isSyncing := true, syncStartBlock := 0, totalEventsProcessed := 2 },
    by decide, by decide⟩

/-- C2 witness: the amended theorem applied to a fresh `Transfer` event
against the one-row store. -/
theorem c2_transfer_idempotent_witness :
    transferEvent.eventName = "Transfer"
    ∧ (dbAt 0).transfers.countP
        (transferKey transferEvent.transactionHash transferEvent.logIndex) = 0
    ∧ ∃ db1,
        processTokenEvent (dbAt 0) transferEvent "a" 1 true = .ok db1
        ∧ processTokenEvent db1 transferEvent "a" 1 true = .ok db1
        ∧ db1.transfers.countP
            (transferKey transferEvent.transactionHash transferEvent.logIndex) = 1 := by
  refine ⟨rfl, by decide, ?_⟩
  obtain ⟨db1, h1, h2, h3, _, _⟩ :=
    c2_transfer_idempotent (dbAt 0) transferEvent "a" 1 rfl (by decide)
  exact ⟨db1, h1, h2, h3⟩

/-- C10: a fresh `Approval` event leaves the materialized transfer store
and the failure sink unchanged while still incrementing
`totalEventsProcessed` by one — the progress counter can exceed the
number of materialized records. -/
theorem c10_approval_no_row (db : DbState) (e : TokenEvent) (addr : Addr) (ch : Int)
    (saveOk : Bool) (hkind : e.eventName = "Approval")
    (hnew : db.transfers.countP (transferKey e.transactionHash e.logIndex) = 0) :
    processTokenEvent db e addr ch saveOk = .ok (incrementTotal db addr ch)
    ∧ (incrementTotal db addr ch).transfers = db.transfers
    ∧ (incrementTotal db addr ch).failedEvents = db.failedEvents
    ∧ (∀ r, findProgress db addr ch = some r →
        ∃ r', findProgress (incrementTotal db addr ch) addr ch = some r'
          ∧ r'.totalEventsProcessed = r.totalEventsProcessed + 1) := by
  have hfnone : findTransfer db e.transactionHash e.logIndex = none := by
    unfold findTransfer
    rw [List.find?_eq_none]
    exact List.countP_eq_zero.mp hnew
  refine ⟨?_, rfl, rfl, ?_⟩
  · unfold processTokenEvent
    rw [hfnone]
    simp [hkind]
  · intro r hr
    have hsame : findProgress (incrementTotal db addr ch) addr ch
        = (findProgress db addr ch).map
            (fun r => { r with totalEventsProcessed := r.totalEventsProcessed + 1 }) :=
      find?_updateWhere_same _ _ _ _ (fun r => ⟨rfl, rfl⟩)
    rw [hsame, hr]
    exact ⟨_, rfl, rfl⟩

/-- C10 witness: the theorem applied to the concrete `Approval` event
against the one-row store. -/
theorem c10_approval_no_row_witness :
    processTokenEvent (dbAt 0) approvalEvent "a" 1 true
        = .ok (incrementTotal (dbAt 0) "a" 1)
    ∧ (incrementTotal (dbAt 0) "a" 1).transfers = [] := by
  have h := c10_approval_no_row (dbAt 0) approvalEvent "a" 1 true rfl (by decide)
  exact ⟨h.1, h.2.1⟩

/-! ### C4: cursor advance versus event application -/

/-- C4 (amended): `processBlockRange` updates `lastProcessedBlock` to
`toBlock` unconditionally once the fetch succeeds, right after
*enqueueing* the sub-range's events as individual event-processing
jobs; the update does not wait for any event to be applied to the
materialized store or recorded in the failure sink — both are left
untouched — so individual event failures cannot block the cursor. -/
theorem c4_cursor_after_enqueue (db : DbState) (q : List ProcessEventJob)
    (job : IndexingJobData) (evs : List TokenEvent) :
    ∃ db' q',
      processBlockRange db q job (Except.ok evs) = .ok (db', q')
      ∧ q' = q ++ evs.map (fun e =>
          { event := e, contractAddress := job.contractAddress, chainId := job.chainId })
      ∧ db'.transfers = db.transfers
      ∧ db'.failedEvents = db.failedEvents
      ∧ (∀ p, findProgress db job.contractAddress job.chainId = some p →
          ∃ p', findProgress db' job.contractAddress job.chainId = some p'
            ∧ p'.lastProcessedBlock = job.toBlock) := by
  refine ⟨_, _, rfl, rfl, rfl, rfl, ?_⟩
  intro p hp
  have hsame : findProgress
      { db with
          progress := updateWhere db.progress job.contractAddress job.chainId
            (fun r => { r with lastProcessedBlock := job.toBlock }) }
      job.contractAddress job.chainId
      = (findProgress db job.contractAddress job.chainId).map
          (fun r => { r with lastProcessedBlock := job.toBlock }) :=
    find?_updateWhere_same _ _ _ _ (fun r => ⟨rfl, rfl⟩)
  rw [hsame, hp]
  exact ⟨_, rfl, rfl⟩

/-- C4 counterexample: after a sub-range with one event completes, the
cursor already reads `toBlock` while that event sits in the event queue,
being in neither the transfer store nor the failure sink — the update
did not wait for the event to be applied or recorded. -/
theorem c4_counterexample :
    ∃ db' q',
      processBlockRange (dbAt 99) [] lateJob (Except.ok [transferEvent]) = .ok (db', q')
      ∧ (∃ p', findProgress db' "a" 1 = some p' ∧ p'.lastProcessedBlock = lateJob.toBlock)
      ∧ db'.transfers.countP
          (transferKey transferEvent.transactionHash transferEvent.logIndex) = 0
      ∧ db'.failedEvents = []
      ∧ q' = [{ event := transferEvent, contractAddress := "a", chainId := 1 }] := by
  refine ⟨_, _, rfl, ?_, by decide, by decide, by decide⟩
  exact ⟨{ contractAddress := "a", chainId := 1, lastProcessedBlock := 150
           isSyncing := true, syncStartBlock := 0, totalEventsProcessed := 0 },
    by decide, by decide⟩

/-- C4 witness: the amended theorem applied to a one-event sub-range
against the one-row store. -/
theorem c4_cursor_after_enqueue_witness :
    ∃ db' q',
      processBlockRange (dbAt 99) [] lateJob (Except.ok [transferEvent]) = .ok (db', q')
      ∧ db'.transfers = []
      ∧ db'.failedEvents = []
      ∧ (∃ p', findProgress db' "a" 1 = some p' ∧ p'.lastProcessedBlock = 150) := by
  obtain ⟨db', q', h1, _, h3, h4, h5⟩ :=
    c4_cursor_after_enqueue (dbAt 99) [] lateJob [transferEvent]
  refine ⟨db', q', h1, h3, h4, ?_⟩
  obtain ⟨p', hp1, hp2⟩ := h5 (rowAt 99) (by decide)
  exact ⟨p', hp1, hp2⟩

/-! ### C1: cursor monotonicity -/

theorem cursor_preserved_updateWhere (l : List ProgressRow) (a2 : Addr) (ch2 : Int)
    (f : ProgressRow → ProgressRow)
    (hf : ∀ x, (f x).contractAddress = x.contractAddress ∧ (f x).chainId = x.chainId)
    (hl : ∀ x, (f x).lastProcessedBlock = x.lastProcessedBlock)
    (a : Addr) (ch : Int) (r : ProgressRow) (h : l.find? (progressKey a ch) = some r) :
    ∃ r', (updateWhere l a2 ch2 f).find? (progressKey a ch) = some r'
      ∧ r.lastProcessedBlock ≤ r'.lastProcessedBlock := by
  by_cases he : a = a2 ∧ ch = ch2
  · obtain ⟨rfl, rfl⟩ := he
    refine ⟨f r, ?_, le_of_eq (hl r).symm⟩
    rw [find?_updateWhere_same l a ch f hf, h]
    rfl
  · refine ⟨r, ?_, le_refl _⟩
    rw [find?_updateWhere_other l a2 ch2 f hf a ch he]
    exact h

theorem cursor_preserved_append (l : List ProgressRow) (x : ProgressRow)
    (a : Addr) (ch : Int) (r : ProgressRow) (h : l.find? (progressKey a ch) = some r) :
    (l ++ [x]).find? (progressKey a ch) = some r := by
  rw [List.find?_append, h]
  rfl

theorem step_cursor_mono (configs : List ContractConfig) (s : Sys) (op : Op)
    (hop : inOrderAt s op = true) (a : Addr) (ch : Int) (r : ProgressRow)
    (h : findProgress s.db a ch = some r) :
    ∃ r', findProgress (step configs s op).db a ch = some r'
      ∧ r.lastProcessedBlock ≤ r'.lastProcessedBlock := by
  cases op with
  | blockRange job fetch =>
    cases fetch with
    | error e => exact ⟨r, h, le_refl _⟩
    | ok evs =>
      by_cases he : a = job.contractAddress ∧ ch = job.chainId
      · have hle : r.lastProcessedBlock ≤ job.toBlock := by
          have hop' := hop
          simp only [inOrderAt] at hop'
          rw [← he.1, ← he.2, h] at hop'
          exact of_decide_eq_true hop'
        obtain ⟨rfl, rfl⟩ := he
        have h' : s.db.progress.find? (progressKey job.contractAddress job.chainId)
            = some r := h
        refine ⟨{ r with lastProcessedBlock := job.toBlock }, ?_, hle⟩
        show (updateWhere s.db.progress job.contractAddress job.chainId
            (fun x => { x with lastProcessedBlock := job.toBlock })).find?
            (progressKey job.contractAddress job.chainId) = _
        rw [find?_updateWhere_same s.db.progress job.contractAddress job.chainId
          (fun x => { x with lastProcessedBlock := job.toBlock }) (fun x => ⟨rfl, rfl⟩), h']
        rfl
      · refine ⟨r, ?_, le_refl _⟩
        show (updateWhere s.db.progress job.contractAddress job.chainId
            (fun x => { x with lastProcessedBlock := job.toBlock })).find?
            (progressKey a ch) = some r
        rw [find?_updateWhere_other s.db.progress job.contractAddress job.chainId
          (fun x => { x with lastProcessedBlock := job.toBlock }) (fun x => ⟨rfl, rfl⟩) a ch he]
        exact h
  | tokenEvent j saveOk =>
    show ∃ r', findProgress
        (processTokenEvent s.db j.event j.contractAddress j.chainId saveOk).state a ch
        = some r' ∧ _
    unfold processTokenEvent
    cases hft : findTransfer s.db j.event.transactionHash j.event.logIndex with
    | some t => exact ⟨r, h, le_refl _⟩
    | none =>
      by_cases hev : (j.event.eventName == "Transfer") = true
      · rw [if_pos hev]
        cases saveOk with
        | true =>
          show ∃ r', (updateWhere s.db.progress j.contractAddress j.chainId
              (fun x => { x with totalEventsProcessed := x.totalEventsProcessed + 1 })).find?
              (progressKey a ch) = some r' ∧ _
          exact cursor_preserved_updateWhere _ _ _
            (fun x => { x with totalEventsProcessed := x.totalEventsProcessed + 1 })
            (fun x => ⟨rfl, rfl⟩) (fun x => rfl) a ch r h
        | false => exact ⟨r, h, le_refl _⟩
      · rw [if_neg hev]
        show ∃ r', (updateWhere s.db.progress j.contractAddress j.chainId
            (fun x => { x with totalEventsProcessed := x.totalEventsProcessed + 1 })).find?
            (progressKey a ch) = some r' ∧ _
        exact cursor_preserved_updateWhere _ _ _
          (fun x => { x with totalEventsProcessed := x.totalEventsProcessed + 1 })
          (fun x => ⟨rfl, rfl⟩) (fun x => rfl) a ch r h
  | stop a2 ch2 cf =>
    show ∃ r', findProgress (stopIndexing s.db s.queues a2 ch2 cf).2.1 a ch = some r' ∧ _
    unfold stopIndexing
    cases hsp : findProgress s.db (lowercase a2) ch2 with
    | none => exact ⟨r, h, le_refl _⟩
    | some p =>
      show ∃ r', (updateWhere s.db.progress (lowercase a2) ch2
          (fun x => { x with isSyncing := false })).find? (progressKey a ch) = some r' ∧ _
      exact cursor_preserved_updateWhere _ _ _
        (fun x => { x with isSyncing := false })
        (fun x => ⟨rfl, rfl⟩) (fun x => rfl) a ch r h
  | setSyncing a2 ch2 b =>
    show ∃ r', (updateWhere s.db.progress (lowercase a2) ch2
        (fun x => { x with isSyncing := b })).find? (progressKey a ch) = some r' ∧ _
    exact cursor_preserved_updateWhere _ _ _
      (fun x => { x with isSyncing := b })
      (fun x => ⟨rfl, rfl⟩) (fun x => rfl) a ch r h
  | runStart a2 ch2 events cur bs =>
    show ∃ r', findProgress (handleStartIndexing s.db a2 ch2 events cur bs).db a ch
        = some r' ∧ _
    unfold handleStartIndexing
    cases hsp : findProgress s.db (lowercase a2) ch2 with
    | none =>
      show ∃ r', (updateWhere s.db.progress (lowercase a2) ch2
          (fun x => { x with isSyncing := false })).find? (progressKey a ch) = some r' ∧ _
      exact cursor_preserved_updateWhere _ _ _
        (fun x => { x with isSyncing := false })
        (fun x => ⟨rfl, rfl⟩) (fun x => rfl) a ch r h
    | some p =>
      dsimp only
      by_cases hsy : (!p.isSyncing) = true
      · rw [if_pos hsy]
        exact ⟨r, h, le_refl _⟩
      · rw [if_neg hsy]
        by_cases hcu : cur - 1 ≤ p.lastProcessedBlock
        · rw [if_pos hcu]
          show ∃ r', (updateWhere s.db.progress (lowercase a2) ch2
              (fun x => { x with isSyncing := false })).find? (progressKey a ch) = some r' ∧ _
          exact cursor_preserved_updateWhere _ _ _
            (fun x => { x with isSyncing := false })
            (fun x => ⟨rfl, rfl⟩) (fun x => rfl) a ch r h
        · rw [if_neg hcu]
          exact ⟨r, h, le_refl _⟩
  | start a2 valid cur =>
    show ∃ r', findProgress
        (startIndexing s.db s.queues.indexing configs valid cur a2).state.1 a ch
        = some r' ∧ _
    unfold startIndexing
    cases hcf : getContractConfig configs a2 with
    | none => exact ⟨r, h, le_refl _⟩
    | some cfg =>
      dsimp only
      by_cases hen : (!cfg.enabled) = true
      · rw [if_pos hen]
        exact ⟨r, h, le_refl _⟩
      · rw [if_neg hen]
        by_cases hv : (!valid) = true
        · rw [if_pos hv]
          exact ⟨r, h, le_refl _⟩
        · rw [if_neg hv]
          cases hsp : findProgress s.db (lowercase a2) cfg.chainId with
          | none =>
            exact ⟨r, cursor_preserved_append _ _ a ch r h, le_refl _⟩
          | some p =>
            show ∃ r', (updateWhere s.db.progress (lowercase a2) cfg.chainId
                (fun x => { x with isSyncing := true })).find? (progressKey a ch)
                = some r' ∧ _
            exact cursor_preserved_updateWhere _ _ _
              (fun x => { x with isSyncing := true })
              (fun x => ⟨rfl, rfl⟩) (fun x => rfl) a ch r h

/-- C1 (amended): the cursor is monotonically non-decreasing across
every in-order operation sequence — one where each `processBlockRange`
runs with `toBlock` at or above the entity's current cursor, as holds
when sub-ranges complete in submission order. `processBlockRange`
itself writes `lastProcessedBlock = toBlock` unconditionally, so a
redelivered or out-of-order sub-range with a lower `toBlock` *does*
lower the cursor (see the counterexample). -/
theorem c1_cursor_monotone (configs : List ContractConfig) :
    ∀ (ops : List Op) (s : Sys) (a : Addr) (ch : Int) (r : ProgressRow),
      inOrderFrom configs s ops = true →
      findProgress s.db a ch = some r →
      ∃ r', findProgress (run configs s ops).db a ch = some r'
        ∧ r.lastProcessedBlock ≤ r'.lastProcessedBlock
  | [], _, _, _, r, _, h => ⟨r, h, le_refl _⟩
  | op :: ops, s, a, ch, r, hg, h => by
    rw [inOrderFrom, Bool.and_eq_true] at hg
    obtain ⟨r1, h1, hle1⟩ := step_cursor_mono configs s op hg.1 a ch r h
    obtain ⟨r2, h2, hle2⟩ :=
      c1_cursor_monotone configs ops (step configs s op) a ch r1 hg.2 h1
    exact ⟨r2, h2, le_trans hle1 hle2⟩

/-- C1 counterexample: with the cursor committed at 200, processing the
redelivered sub-range `[100, 150]` (reachable through the per-unit
bounded-retry policy once a later sub-range has already completed)
rewrites `lastProcessedBlock` to 150 — strictly below the previously
committed value. -/
theorem c1_counterexample :
    ∃ r', findProgress (step [] (sysAt 200) (Op.blockRange lateJob (Except.ok []))).db
        "a" 1 = some r'
      ∧ findProgress (sysAt 200).db "a" 1 = some (rowAt 200)
      ∧ r'.lastProcessedBlock < (rowAt 200).lastProcessedBlock :=
  ⟨{ contractAddress := "a", chainId := 1, lastProcessedBlock := 150
     isSyncing := true, syncStartBlock := 0, totalEventsProcessed := 0 },
    by decide, by decide, by decide⟩

/-- C1 witness: the amended theorem applied to the single in-order
sub-range `[201, 250]` against the cursor-200 store. -/
theorem c1_cursor_monotone_witness :
    inOrderFrom [] (sysAt 200) [Op.blockRange okJob (Except.ok [])] = true
    ∧ ∃ r', findProgress (run [] (sysAt 200) [Op.blockRange okJob (Except.ok [])]).db
        "a" 1 = some r'
      ∧ (rowAt 200).lastProcessedBlock ≤ r'.lastProcessedBlock :=
  ⟨by decide,
    c1_cursor_monotone [] [Op.blockRange okJob (Except.ok [])] (sysAt 200) "a" 1
      (rowAt 200) (by decide) (by decide)⟩

/-! ### C7: stop semantics -/

/-- C7: `stopIndexing` fails with a not-found result, mutating nothing,
when no progress row exists; otherwise it reports success, the row's
`isSyncing` is false, and the pending-job cleanup ran — removing the
contract's waiting and delayed jobs when it succeeds, leaving the queues
as they were when it fails (the failure is swallowed, never surfaced as
an error), and never touching active jobs. -/
theorem c7_stop (db : DbState) (qs : Queues) (addr : Addr) (ch : Int)
    (cancelFails : Bool) :
    (findProgress db (lowercase addr) ch = none →
        stopIndexing db qs addr ch cancelFails = (.notFound, db, qs))
    ∧ (∀ p, findProgress db (lowercase addr) ch = some p →
        (stopIndexing db qs addr ch cancelFails).1 = StopResult.ok
        ∧ (∃ r', findProgress (stopIndexing db qs addr ch cancelFails).2.1
              (lowercase addr) ch = some r' ∧ r'.isSyncing = false)
        ∧ (stopIndexing db qs addr ch cancelFails).2.2
            = removeContractJobs qs addr ch cancelFails)
    ∧ removeContractJobs qs addr ch true = qs
    ∧ (removeContractJobs qs addr ch false).eventProc.waiting
        = qs.eventProc.waiting.filter
            (fun j => !((lowercase j.contractAddress) == (lowercase addr) && j.chainId == ch))
    ∧ (removeContractJobs qs addr ch false).blockProc.delayed
        = qs.blockProc.delayed.filter
            (fun j => !((lowercase j.contractAddress) == (lowercase addr) && j.chainId == ch))
    ∧ (removeContractJobs qs addr ch cancelFails).indexing.active = qs.indexing.active
    ∧ (removeContractJobs qs addr ch cancelFails).blockProc.active = qs.blockProc.active
    ∧ (removeContractJobs qs addr ch cancelFails).eventProc.active = qs.eventProc.active := by
  refine ⟨?_, ?_, rfl, rfl, rfl, ?_, ?_, ?_⟩
  · intro h
    unfold stopIndexing
    rw [h]
  · intro p hp
    unfold stopIndexing
    rw [hp]
    refine ⟨rfl, ?_, rfl⟩
    rw [findProgress_updateSyncing_same, hp]
    exact ⟨_, rfl, rfl⟩
  · cases cancelFails <;> rfl
  · cases cancelFails <;> rfl
  · cases cancelFails <;> rfl

/-- C7 witness: the theorem applied to the cursor-200 store with pending
and active work for contracts `"a"` and `"b"`. -/
theorem c7_stop_witness :
    (stopIndexing (dbAt 200) sampleQueues "a" 1 false).1 = StopResult.ok
    ∧ (∃ r', findProgress (stopIndexing (dbAt 200) sampleQueues "a" 1 false).2.1
          (lowercase "a") 1 = some r' ∧ r'.isSyncing = false)
    ∧ removeContractJobs sampleQueues "a" 1 true = sampleQueues := by
  have h := c7_stop (dbAt 200) sampleQueues "a" 1 false
  have h2 := h.2.1 (rowAt 200) (by decide)
  exact ⟨h2.1, h2.2.1, h.2.2.1⟩

/-! ### C6: startup recovery -/

theorem startIndexing_frame (db : DbState) (q : BullQueue StartJobData)
    (configs : List ContractConfig) (valid : Bool) (cur : Int) (addr : Addr)
    (x : Addr) (ch : Int) (hx : x ≠ lowercase addr) :
    findProgress (startIndexing db q configs valid cur addr).state.1 x ch
      = findProgress db x ch := by
  unfold startIndexing
  cases getContractConfig configs addr with
  | none => rfl
  | some cfg =>
    dsimp only
    by_cases hen : (!cfg.enabled) = true
    · rw [if_pos hen]
      rfl
    · rw [if_neg hen]
      by_cases hv : (!valid) = true
      · rw [if_pos hv]
        rfl
      · rw [if_neg hv]
        cases hsp : findProgress db (lowercase addr) cfg.chainId with
        | none =>
          have hca : ((lowercase addr) == x) = false :=
            beq_eq_false_iff_ne.mpr (Ne.symm hx)
          have hrow : List.find? (progressKey x ch)
              [{ contractAddress := lowercase addr, chainId := cfg.chainId
                 lastProcessedBlock := cfg.startBlock.getD cur - 1, isSyncing := true
                 syncStartBlock := cfg.startBlock.getD cur, totalEventsProcessed := 0 }]
              = none := by
            rw [List.find?_cons_of_neg]
            · rfl
            · simp [progressKey, hca]
          show (db.progress ++ [_]).find? (progressKey x ch)
              = db.progress.find? (progressKey x ch)
          rw [List.find?_append, hrow, Option.or_none]
        | some p =>
          show (updateWhere db.progress (lowercase addr) cfg.chainId
              (fun r => { r with isSyncing := true })).find? (progressKey x ch)
              = db.progress.find? (progressKey x ch)
          exact find?_updateWhere_other _ _ _
            (fun r => { r with isSyncing := true }) (fun r => ⟨rfl, rfl⟩) x ch
            (fun hand => hx hand.1)

theorem resumeContract_frame (configs : List ContractConfig) (valid : Addr → Bool)
    (cur : Int) (db : DbState) (q : BullQueue StartJobData) (c : ContractConfig)
    (x : Addr) (ch : Int) (hx : x ≠ lowercase c.address) :
    findProgress (resumeContractIndexing configs valid cur db q c).1 x ch
      = findProgress db x ch := by
  unfold resumeContractIndexing
  cases findProgress db (lowercase c.address) c.chainId with
  | some p => exact startIndexing_frame db q configs (valid c.address) cur c.address x ch hx
  | none => rfl

theorem resumeContract_step (configs : List ContractConfig) (valid : Addr → Bool)
    (cur : Int) (db : DbState) (q : BullQueue StartJobData) (c : ContractConfig) :
    (resumeContractIndexing configs valid cur db q c).2.2
      = if (findProgress db (lowercase c.address) c.chainId).isSome
        then ResumeStep.start c.address else ResumeStep.skip c.address := by
  unfold resumeContractIndexing
  cases findProgress db (lowercase c.address) c.chainId with
  | some p => rfl
  | none => rfl

theorem resumeContract_skip_state (configs : List ContractConfig) (valid : Addr → Bool)
    (cur : Int) (db : DbState) (q : BullQueue StartJobData) (c : ContractConfig)
    (hnone : findProgress db (lowercase c.address) c.chainId = none) :
    (resumeContractIndexing configs valid cur db q c).1 = db := by
  unfold resumeContractIndexing
  rw [hnone]

theorem resumeLoop_spec (configs : List ContractConfig) (valid : Addr → Bool) (cur : Int) :
    ∀ (cs : List ContractConfig) (db : DbState) (q : BullQueue StartJobData),
      ((cs.map fun c => lowercase c.address).Nodup) →
      ((resumeLoop configs valid cur db q cs).2.2
          = cs.map (fun c => if (findProgress db (lowercase c.address) c.chainId).isSome
              then ResumeStep.start c.address else ResumeStep.skip c.address))
      ∧ (∀ (x : Addr) (ch : Int), (∀ c ∈ cs, x ≠ lowercase c.address) →
          findProgress (resumeLoop configs valid cur db q cs).1 x ch
            = findProgress db x ch)
      ∧ (∀ c ∈ cs, findProgress db (lowercase c.address) c.chainId = none →
          findProgress (resumeLoop configs valid cur db q cs).1
            (lowercase c.address) c.chainId = none)
  | [], db, q, _ =>
    ⟨rfl, fun x ch _ => rfl, fun c hc => absurd hc (List.not_mem_nil c)⟩
  | c :: cs, db, q, hnod => by
    rw [List.map_cons, List.nodup_cons] at hnod
    obtain ⟨hhead, htail⟩ := hnod
    obtain ⟨ihA, ihB, ihC⟩ := resumeLoop_spec configs valid cur cs
      (resumeContractIndexing configs valid cur db q c).1
      (resumeContractIndexing configs valid cur db q c).2.1 htail
    have hne_tail : ∀ c' ∈ cs, lowercase c'.address ≠ lowercase c.address := by
      intro c' hc' he
      exact hhead (he ▸ List.mem_map_of_mem (fun d => lowercase d.address) hc')
    refine ⟨?_, ?_, ?_⟩
    · show (resumeContractIndexing configs valid cur db q c).2.2
        :: (resumeLoop configs valid cur _ _ cs).2.2 = _
      rw [List.map_cons, ihA, resumeContract_step]
      congr 1
      apply List.map_congr_left
      intro c' hc'
      rw [resumeContract_frame configs valid cur db q c _ _ (hne_tail c' hc')]
    · intro x ch hx
      show findProgress (resumeLoop configs valid cur
          (resumeContractIndexing configs valid cur db q c).1
          (resumeContractIndexing configs valid cur db q c).2.1 cs).1 x ch
        = findProgress db x ch
      rw [ihB x ch (fun c' hc' => hx c' (List.mem_cons_of_mem _ hc'))]
      exact resumeContract_frame configs valid cur db q c x ch
        (hx c (List.mem_cons_self _ _))
    · intro c' hc' hnone
      rcases List.mem_cons.mp hc' with rfl | hmem
      · have hfr : ∀ c'' ∈ cs, lowercase c'.address ≠ lowercase c''.address := by
          intro c'' hc'' he
          exact hhead (he ▸ List.mem_map_of_mem (fun d => lowercase d.address) hc'')
        show findProgress (resumeLoop configs valid cur
            (resumeContractIndexing configs valid cur db q c').1
            (resumeContractIndexing configs valid cur db q c').2.1 cs).1
            (lowercase c'.address) c'.chainId = none
        rw [ihB (lowercase c'.address) c'.chainId fun c'' hc'' => hfr c'' hc'']
        rw [resumeContract_skip_state configs valid cur db q c' hnone]
        exact hnone
      · show findProgress (resumeLoop configs valid cur
            (resumeContractIndexing configs valid cur db q c).1
            (resumeContractIndexing configs valid cur db q c).2.1 cs).1
            (lowercase c'.address) c'.chainId = none
        apply ihC c' hmem
        rw [resumeContract_frame configs valid cur db q c _ _ (hne_tail c' hmem)]
        exact hnone

/-- C6: the startup recovery pass first force-resets every stuck
`isSyncing` flag and only afterwards issues the per-contract resume
steps, one per configured-and-enabled contract in order: Start when the
contract already has a progress row, skip otherwise; an enabled contract
with no row gets no Start call and still has no row afterwards. -/
theorem c6_recovery (db : DbState) (q : BullQueue StartJobData)
    (configs : List ContractConfig) (valid : Addr → Bool) (cur : Int)
    (hnod : (((configs.filter fun c => c.enabled).map fun c => lowercase c.address)).Nodup) :
    ((resumeIndexing db q configs valid cur).2.2
        = ResumeStep.resetAll :: (configs.filter fun c => c.enabled).map
            (fun c => if (findProgress db (lowercase c.address) c.chainId).isSome
              then ResumeStep.start c.address else ResumeStep.skip c.address))
    ∧ (∀ c ∈ configs, c.enabled = true →
        findProgress db (lowercase c.address) c.chainId = none →
          ResumeStep.start c.address ∉ (resumeIndexing db q configs valid cur).2.2
          ∧ findProgress (resumeIndexing db q configs valid cur).1
              (lowercase c.address) c.chainId = none) := by
  obtain ⟨hA, hB, hC⟩ := resumeLoop_spec configs valid cur
    (configs.filter fun c => c.enabled) (resetStuckSyncingStates db) q hnod
  have hpres : ∀ (x : Addr) (ch : Int),
      (findProgress (resetStuckSyncingStates db) x ch).isSome
        = (findProgress db x ch).isSome := by
    intro x ch
    rw [findProgress_reset, Option.isSome_map']
  have hnonepres : ∀ (x : Addr) (ch : Int),
      findProgress db x ch = none →
        findProgress (resetStuckSyncingStates db) x ch = none := by
    intro x ch hn
    rw [findProgress_reset, hn]
    rfl
  have htrace : (resumeIndexing db q configs valid cur).2.2
      = ResumeStep.resetAll :: (configs.filter fun c => c.enabled).map
          (fun c => if (findProgress db (lowercase c.address) c.chainId).isSome
            then ResumeStep.start c.address else ResumeStep.skip c.address) := by
    show ResumeStep.resetAll :: (resumeLoop configs valid cur _ _ _).2.2 = _
    rw [hA]
    congr 1
    apply List.map_congr_left
    intro c' _
    rw [hpres]
  refine ⟨htrace, ?_⟩
  intro c hc hen hnone
  have hcf : c ∈ configs.filter fun c => c.enabled :=
    List.mem_filter.mpr ⟨hc, hen⟩
  constructor
  · rw [htrace]
    intro hmem
    rcases List.mem_cons.mp hmem with habs | hmap
    · exact ResumeStep.noConfusion habs
    · obtain ⟨c', hc', heq⟩ := List.mem_map.mp hmap
      by_cases hs : (findProgress db (lowercase c'.address) c'.chainId).isSome
      · rw [if_pos hs] at heq
        have haddr : c'.address = c.address := by
          injection heq
        have hceq : c' = c := List.inj_on_of_nodup_map hnod hc' hcf (by rw [haddr])
        rw [hceq, hnone] at hs
        simp at hs
      · rw [if_neg hs] at heq
        exact ResumeStep.noConfusion heq
  · show findProgress (resumeLoop configs valid cur _ _ _).1 _ _ = none
    exact hC c hcf (hnonepres _ _ hnone)

/-- C6 witness: the theorem applied to three configured contracts —
`"a"` enabled with a row, `"b"` enabled without one, `"c"` disabled —
against the cursor-200 store. -/
theorem c6_recovery_witness :
    (resumeIndexing (dbAt 200) emptyQueue [cfgA, cfgB, cfgC] (fun _ => true) 300).2.2
        = [ResumeStep.resetAll, ResumeStep.start "a", ResumeStep.skip "b"]
    ∧ ResumeStep.start "b"
        ∉ (resumeIndexing (dbAt 200) emptyQueue [cfgA, cfgB, cfgC] (fun _ => true) 300).2.2
    ∧ findProgress (resumeIndexing (dbAt 200) emptyQueue [cfgA, cfgB, cfgC]
        (fun _ => true) 300).1 (lowercase "b") 1 = none := by
  have h := c6_recovery (dbAt 200) emptyQueue [cfgA, cfgB, cfgC] (fun _ => true) 300
    (by decide)
  have h2 := h.2 cfgB (by decide) (by decide) (by decide)
  refine ⟨?_, h2.1, h2.2⟩
  rw [h.1]
  decide

/-! ### C8: health report totality -/

/-- C8: `getSystemHealth` returns a report for every combination of
collaborator outcomes, including throwing ones — the `try` block itself
never escapes (each collaborator call is caught inside its check), and
the outer catch's fallback report is `unhealthy` with the explanatory
issue `"System health check failed"`. -/
theorem c8_health_never_throws (o : HealthOracles) :
    (∃ r, getSystemHealthE o = Except.ok r ∧ getSystemHealth o = r)
    ∧ healthFallback.status = HealthLevel.unhealthy
    ∧ "System health check failed" ∈ healthFallback.issues :=
  ⟨⟨_, rfl, rfl⟩, rfl, List.mem_singleton.mpr rfl⟩

/-! ### C9: bounded shutdown drain -/

theorem waitLoop_spec (counts : Nat → Nat) (timeoutMs : Nat) (k0 : Nat) :
      ((waitLoop counts timeoutMs k0).2 ≤ max k0 (timeoutMs / 1000 + 1))
      ∧ ((waitLoop counts timeoutMs k0).1 = true →
          ∃ k, k0 ≤ k ∧ k + 1 = (waitLoop counts timeoutMs k0).2 ∧ counts k = 0
            ∧ (∀ j, k0 ≤ j → j < k → counts j ≠ 0) ∧ 1000 * k < timeoutMs)
      ∧ ((waitLoop counts timeoutMs k0).1 = false →
          (∀ k, k0 ≤ k → 1000 * k < timeoutMs → counts k ≠ 0)
          ∧ timeoutMs ≤ 1000 * (waitLoop counts timeoutMs k0).2
          ∧ k0 ≤ (waitLoop counts timeoutMs k0).2) := by
  by_cases h1 : 1000 * k0 < timeoutMs
  · by_cases h2 : counts k0 = 0
    · rw [waitLoop, if_pos h1, if_pos h2]
      refine ⟨by omega, ?_, ?_⟩
      · intro _
        exact ⟨k0, le_refl _, rfl, h2, fun j hj1 hj2 => absurd hj2 (by omega), h1⟩
      · intro hcontra
        exact Bool.noConfusion hcontra
    · rw [waitLoop, if_pos h1, if_neg h2]
      obtain ⟨ih1, ih2, ih3⟩ := waitLoop_spec counts timeoutMs (k0 + 1)
      refine ⟨by omega, ?_, ?_⟩
      · intro ht
        obtain ⟨k, hk0, hk1, hk2, hk3, hk4⟩ := ih2 ht
        refine ⟨k, by omega, hk1, hk2, ?_, hk4⟩
        intro j hj1 hj2
        rcases Nat.eq_or_lt_of_le hj1 with heq | hlt
        · rw [← heq]; exact h2
        · exact hk3 j hlt hj2
      · intro hf
        obtain ⟨hall, hge, hk⟩ := ih3 hf
        refine ⟨?_, hge, by omega⟩
        intro k hk0 hkt
        rcases Nat.eq_or_lt_of_le hk0 with heq | hlt
        · rw [← heq]; exact h2
        · exact hall k hlt hkt
  · rw [waitLoop, if_neg h1]
    refine ⟨le_max_left _ _, ?_, ?_⟩
    · intro hcontra
      exact Bool.noConfusion hcontra
    · intro _
      exact ⟨fun k hk0 hkt => absurd hkt (by omega), by omega, le_refl _⟩
termination_by timeoutMs - 1000 * k0
decreasing_by omega

/-- C9: the shutdown drain terminates in bounded time — it polls the
queues' active-job counts at 1-second intervals at most
`timeoutMs/1000 + 1` times, returns at the first poll that observes
zero active jobs, and otherwise gives up only once the timeout has
elapsed (proceeding with a warning, with every in-window poll having
seen active jobs); the stuck-flag reset comes first and the three
queues are closed only after the wait completes or times out. -/
theorem c9_shutdown_drain (db : DbState) (counts : Nat → Nat) (timeoutMs : Nat) :
    (waitForActiveJobs counts timeoutMs).2 ≤ timeoutMs / 1000 + 1
    ∧ ((waitForActiveJobs counts timeoutMs).1 = true →
        ∃ k, k + 1 = (waitForActiveJobs counts timeoutMs).2
          ∧ counts k = 0 ∧ (∀ j, j < k → counts j ≠ 0) ∧ 1000 * k < timeoutMs)
    ∧ ((waitForActiveJobs counts timeoutMs).1 = false →
        (∀ k, 1000 * k < timeoutMs → counts k ≠ 0)
        ∧ timeoutMs ≤ 1000 * (waitForActiveJobs counts timeoutMs).2)
    ∧ (onApplicationShutdown db counts timeoutMs).1 = resetStuckSyncingStates db
    ∧ (onApplicationShutdown db counts timeoutMs).2
        = [ShutdownStep.markStopped]
          ++ (List.range (waitForActiveJobs counts timeoutMs).2).map ShutdownStep.poll
          ++ (if (waitForActiveJobs counts timeoutMs).1 then []
              else [ShutdownStep.warnTimeout])
          ++ [ShutdownStep.closeQueue "indexing",
              ShutdownStep.closeQueue "block-processing",
              ShutdownStep.closeQueue "event-processing"] := by
  obtain ⟨h1, h2, h3⟩ := waitLoop_spec counts timeoutMs 0
  refine ⟨by simpa using h1, ?_, ?_, rfl, rfl⟩
  · intro ht
    obtain ⟨k, _, hk1, hk2, hk3, hk4⟩ := h2 ht
    exact ⟨k, hk1, hk2, fun j hj => hk3 j (Nat.zero_le j) hj, hk4⟩
  · intro hf
    obtain ⟨hall, hge, _⟩ := h3 hf
    exact ⟨fun k hk => hall k (Nat.zero_le k) hk, hge⟩

/-- C9 witness: with jobs active at the first two polls and none at the
third, the drain returns success after three polls, within the bound. -/
theorem c9_shutdown_drain_witness :
    waitForActiveJobs (fun k => if k < 2 then 5 else 0) 30000 = (true, 3)
    ∧ (waitForActiveJobs (fun k => if k < 2 then 5 else 0) 30000).2 ≤ 30000 / 1000 + 1 := by
  have h := c9_shutdown_drain (dbAt 200) (fun k => if k < 2 then 5 else 0) 30000
  refine ⟨?_, h.1⟩
  show waitLoop _ 30000 0 = (true, 3)
  rw [waitLoop]; norm_num
  rw [waitLoop]; norm_num
  rw [waitLoop]; norm_num

end TokenIndexer
